import Mathlib

set_option autoImplicit false

/-!
Verification of the papers-feed browser extension source-integration layer.

The TypeScript sources are shallowly embedded: JS strings become `String`
(a wrapper around `List Char` in this Lean version), JS string methods are
modelled by executable helpers (`jsTrim`, `jsToLower`, `jsSplit`, ...), the
DOM is a record of meta tags in document order, and the GitHub-backed store
is an oracle recording the calls a handler issues together with their
results.
-/

/-! ## JS string primitives -/

/-- Whitespace recognised by `String.prototype.trim` (ASCII part). -/
def isJsSpace (c : Char) : Bool :=
  c = ' ' || c = '\t' || c = '\n' || c = '\r' || c = '\x0b' || c = '\x0c'

/-- Trim on character lists: drop leading and trailing whitespace. -/
def trimList (l : List Char) : List Char :=
  ((l.dropWhile isJsSpace).reverse.dropWhile isJsSpace).reverse

/-- JS `s.trim()`. -/
def jsTrim (s : String) : String := ⟨trimList s.data⟩

/-- JS `s.toLowerCase()` (ASCII-faithful). -/
def jsToLower (s : String) : String := ⟨s.data.map Char.toLower⟩

/-- `leadsWith pat l` is true when `pat` occurs at the start of `l`. -/
def leadsWith : List Char → List Char → Bool
  | [], _ => true
  | _ :: _, [] => false
  | a :: as, b :: bs => a == b && leadsWith as bs

/-- JS `s.startsWith(pat)`. -/
def jsStartsWith (s pat : String) : Bool := leadsWith pat.data s.data

/-- JS `s.slice(n)`. -/
def jsSlice (s : String) (n : Nat) : String := ⟨s.data.drop n⟩

/-- JS `s.split(sep)` for a single-character separator, on char lists.
The result is always non-empty and concatenating the pieces with `sep`
gives back the input. -/
def splitCharList (sep : Char) : List Char → List (List Char)
  | [] => [[]]
  | c :: cs =>
    let rest := splitCharList sep cs
    if c = sep then [] :: rest
    else (c :: rest.headD []) :: rest.tail

/-- JS `s.split(sep)` for a single-character separator. -/
def jsSplit (sep : Char) (s : String) : List String :=
  (splitCharList sep s.data).map (fun l => ⟨l⟩)

/-- JS `s.split(regex)` for a single-character-class regex: split at every
character satisfying `p`. -/
def splitByPred (p : Char → Bool) : List Char → List (List Char)
  | [] => [[]]
  | c :: cs =>
    let rest := splitByPred p cs
    if p c then [] :: rest
    else (c :: rest.headD []) :: rest.tail

/-- JS `s.split(/[,;]/)`. -/
def splitByCommaSemicolon (s : String) : List String :=
  (splitByPred (fun c => c = ',' || c = ';') s.data).map (fun l => ⟨l⟩)

/-- Matcher for the source's `READ_DATE_PATTERN` regex `^\d{4}-\d{2}-\d{2}$`. -/
def matchesReadDatePattern (s : String) : Bool :=
  match s.data with
  | [y1, y2, y3, y4, h1, m1, m2, h2, d1, d2] =>
    y1.isDigit && y2.isDigit && y3.isDigit && y4.isDigit && h1 = '-' &&
    m1.isDigit && m2.isDigit && h2 = '-' && d1.isDigit && d2.isDigit
  | _ => false

/-- JS truthiness for a nullable string (`null`/`undefined` and `""` are falsy). -/
def jsTruthy : Option String → Bool
  | some s => s ≠ ""
  | none => false

/-- JS `a || b` on nullable strings: `b` when `a` is falsy. -/
def jsOr (a b : Option String) : Option String :=
  if jsTruthy a then a else b

/-! ## Sender URLs and the frontend trust check (background.ts) -/

/-- Result of `new URL(raw)` on a sender URL: the components the trust check
reads. A real `URL` object normalises `hostname` to lower case; theorems
that rely on this take it as an explicit hypothesis (`hostLowered`). -/
structure ParsedUrl where
  hostname : String
  pathname : String
deriving DecidableEq

/-- The `sender.url` value seen by a message handler. `missing` covers both
`undefined` and the empty string (both falsy in the `!url` guard);
`unparseable` is a URL string on which the `new URL` constructor throws. -/
inductive SenderUrl where
  | missing : SenderUrl
  | unparseable : String → SenderUrl
  | parsed : ParsedUrl → SenderUrl
deriving DecidableEq

/-- True when the hostname of a parsed sender URL is already lower case,
as the JS `URL` parser guarantees. -/
def hostLowered : SenderUrl → Bool
  | .parsed u => jsToLower u.hostname = u.hostname
  | _ => true

/-- Embedding of `isTrustedFrontendUrl` from `background.ts`: the sender URL
must be on the configured store's GitHub Pages site (`<owner>.github.io`
under path `/<repo>`), or a local-development host. `githubRepo` is the
global `"owner/repo"` credential string. -/
def isTrustedFrontendUrl (githubRepo : String) (url : SenderUrl) : Bool :=
  match url with
  | .missing => false
  | .unparseable _ => false
  | .parsed parsedUrl =>
    if githubRepo = "" then false
    else
      let parts := jsSplit '/' githubRepo
      let owner := parts.headD ""
      let repo := (parts.drop 1).headD ""
      if owner = "" || repo = "" then false
      else
        let host := jsToLower parsedUrl.hostname
        let path := jsToLower parsedUrl.pathname
        let repoPath := "/" ++ jsToLower repo
        let expectedHost := jsToLower owner ++ ".github.io"
        let isGitHubPagesPath := host == expectedHost &&
          (path == repoPath || path == repoPath ++ "/" || jsStartsWith path (repoPath ++ "/"))
        let isLocalDev := host == "localhost" || host == "127.0.0.1"
        isGitHubPagesPath || isLocalDev

/-- The trust condition exactly as the specification words it: hostname
equals `<owner>.github.io` case-insensitively and the path equals
`/<repo>`, equals `/<repo>/`, or is nested under `/<repo>/` (path compared
literally), or the hostname is a local-development host. -/
def trustedFrontendSpec (owner repo : String) (url : SenderUrl) : Bool :=
  match url with
  | .parsed u =>
    (jsToLower u.hostname == jsToLower (owner ++ ".github.io") &&
      (u.pathname == "/" ++ repo || u.pathname == "/" ++ repo ++ "/" ||
        jsStartsWith u.pathname ("/" ++ repo ++ "/"))) ||
    (u.hostname == "localhost" || u.hostname == "127.0.0.1")
  | _ => false

/-- The amended trust condition: as `trustedFrontendSpec`, but the path is
also compared case-insensitively, matching the code's behaviour. -/
def trustedFrontendSpecCI (owner repo : String) (url : SenderUrl) : Bool :=
  match url with
  | .parsed u =>
    (jsToLower u.hostname == jsToLower (owner ++ ".github.io") &&
      (jsToLower u.pathname == "/" ++ jsToLower repo ||
        jsToLower u.pathname == "/" ++ jsToLower repo ++ "/" ||
        jsStartsWith (jsToLower u.pathname) ("/" ++ jsToLower repo ++ "/"))) ||
    (u.hostname == "localhost" || u.hostname == "127.0.0.1")
  | _ => false

/-! ## Store key derivation and the store-call model (background.ts) -/

/-- Embedding of `toInteractionObjectId`: derive the interaction-log key
from a paper key, preserving the `:` / `.` delimiter style. -/
def toInteractionObjectId (paperKey : String) : Option String :=
  if jsStartsWith paperKey "paper:" then
    some ("interactions:" ++ jsSlice paperKey "paper:".length)
  else if jsStartsWith paperKey "paper." then
    some ("interactions." ++ jsSlice paperKey "paper.".length)
  else
    none

/-- One HTTP round-trip issued against the GitHub store by the handlers
under verification. -/
inductive StoreCall where
  | updateObject : String → Option String → StoreCall
  | fetchIssues : String → StoreCall
  | addLabels : Nat → List String → StoreCall
  | closeIssue : Nat → StoreCall
deriving DecidableEq

/-- Oracle standing for the `GitHubStoreClient`: the result each round-trip
would produce. `fetchIssues` yields the issue numbers of the matching
issues (a thrown network error is `Except.error`); `addLabels` and
`closeIssue` either succeed or throw. -/
structure ClientOracle where
  fetchIssues : String → Except String (List Nat)
  addLabels : Nat → Except String Unit
  closeIssue : Nat → Except String Unit

/-- Embedding of `findIssueNumberForObject`: list issues labelled
`stored-object,UID:<objectId>` and return the first issue number, or `none`
when the store has no such object. Also returns the calls issued. -/
def findIssueNumberForObject (client : ClientOracle) (objectId : String) :
    Except String (Option Nat) × List StoreCall :=
  let call := StoreCall.fetchIssues ("stored-object,UID:" ++ objectId)
  match client.fetchIssues ("stored-object,UID:" ++ objectId) with
  | .error e => (.error e, [call])
  | .ok issues => (.ok issues.head?, [call])

/-- Embedding of `archiveObjectById`: find the issue for the object; when
present (and its number truthy), add the `archived` label and close the
issue. `false` means the object was not found. -/
def archiveObjectById (client : ClientOracle) (objectId : String) :
    Except String Bool × List StoreCall :=
  match findIssueNumberForObject client objectId with
  | (.error e, calls) => (.error e, calls)
  | (.ok none, calls) => (.ok false, calls)
  | (.ok (some n), calls) =>
    if n = 0 then (.ok false, calls)
    else
      match client.addLabels n with
      | .error e => (.error e, calls ++ [StoreCall.addLabels n ["archived"]])
      | .ok _ =>
        match client.closeIssue n with
        | .error e =>
          (.error e, calls ++ [StoreCall.addLabels n ["archived"], StoreCall.closeIssue n])
        | .ok _ =>
          (.ok true, calls ++ [StoreCall.addLabels n ["archived"], StoreCall.closeIssue n])

/-- The `{success, error?}` object passed to `sendResponse`. -/
structure HandlerResponse where
  success : Bool
  error : Option String
deriving DecidableEq

/-- Embedding of `handleFrontendUpdateManualReadStatus`. `msgPaperKey` is
`none` when `message.paperKey` is not a string; `msgManuallyRead` is `none`
for `null`/`undefined`. `paperManagerConfigured` is whether the global
`paperManager` is non-null, and `updateResult` is the outcome the store's
`updateObject` call would have. Returns the response sent and the store
calls made. -/
def handleFrontendUpdateManualReadStatus (githubRepo : String)
    (paperManagerConfigured : Bool) (updateResult : Except String Unit)
    (msgPaperKey : Option String) (msgManuallyRead : Option String)
    (senderUrl : SenderUrl) : HandlerResponse × List StoreCall :=
  let paperKey := match msgPaperKey with
    | some s => jsTrim s
    | none => ""
  let manuallyRead := msgManuallyRead
  if !(isTrustedFrontendUrl githubRepo senderUrl) then
    (⟨false, some "Untrusted frontend origin"⟩, [])
  else if paperKey = "" then
    (⟨false, some "Invalid paper key"⟩, [])
  else if (match manuallyRead with
           | some s => !(matchesReadDatePattern s)
           | none => false) then
    (⟨false, some "Invalid manuallyRead date format"⟩, [])
  else if !paperManagerConfigured then
    (⟨false, some "GitHub sync is not configured in extension options"⟩, [])
  else
    match updateResult with
    | .ok _ => (⟨true, none⟩, [StoreCall.updateObject paperKey manuallyRead])
    | .error e => (⟨false, some e⟩, [StoreCall.updateObject paperKey manuallyRead])

/-- Embedding of `handleFrontendDeletePaper`: after the trust, key and
configuration guards, archive the primary record; when that succeeds,
best-effort archive the derived interaction-log record (its errors are
logged and swallowed by the inner try/catch). -/
def handleFrontendDeletePaper (githubRepo : String)
    (paperManagerConfigured : Bool) (client : ClientOracle)
    (msgPaperKey : Option String) (senderUrl : SenderUrl) :
    HandlerResponse × List StoreCall :=
  let paperKey := match msgPaperKey with
    | some s => jsTrim s
    | none => ""
  if !(isTrustedFrontendUrl githubRepo senderUrl) then
    (⟨false, some "Untrusted frontend origin"⟩, [])
  else if paperKey = "" then
    (⟨false, some "Invalid paper key"⟩, [])
  else if !paperManagerConfigured then
    (⟨false, some "GitHub sync is not configured in extension options"⟩, [])
  else
    match archiveObjectById client paperKey with
    | (.error e, calls) => (⟨false, some e⟩, calls)
    | (.ok false, calls) => (⟨false, some "Paper not found in store"⟩, calls)
    | (.ok true, calls) =>
      match toInteractionObjectId paperKey with
      | none => (⟨true, none⟩, calls)
      | some interactionsKey =>
        let archived := archiveObjectById client interactionsKey
        (⟨true, none⟩, calls ++ archived.2)

/-! ## Document model and metadata extractors -/

/-- A `<meta>` element: its `name` / `property` / `content` attributes
(`none` when the attribute is absent, i.e. `getAttribute` returns null). -/
structure MetaTag where
  name : Option String
  property : Option String
  content : Option String
deriving DecidableEq

/-- The slice of a parsed document the extractors under verification read:
the `<meta>` elements in document order, and for the IEEE DOM fallback the
`textContent` of the elements matching
`.authors-info .author-name, .author-card .name`. -/
structure DocModel where
  metas : List MetaTag
  ieeeAuthorEls : List (Option String)
deriving DecidableEq

/-- The CSS selectors used through `getMetaContent`. -/
inductive Selector where
  | byName : String → Selector
  | byProperty : String → Selector
deriving DecidableEq

/-- Whether a meta tag matches `meta[name="…"]` / `meta[property="…"]`. -/
def matchesSelector : Selector → MetaTag → Bool
  | .byName n, m => m.name == some n
  | .byProperty p, m => m.property == some p

/-- Modelled from the spec: `getMetaContent` is a helper of the base
`MetadataExtractor` (metadata-extractor.ts, which is not under src/); per
its use sites it returns the `content` attribute of the first element
matching the selector, or null when there is none. -/
def getMetaContent (doc : DocModel) (sel : Selector) : Option String :=
  ((doc.metas.filter (matchesSelector sel)).head?).bind (fun m => m.content)

/-- The `citation_author` contents collected by the shared
`querySelectorAll('meta[name="citation_author"]').forEach` push loop: all
non-empty (truthy) `content` values, in document order. -/
def citationAuthorList (doc : DocModel) : List String :=
  (doc.metas.filter (matchesSelector (.byName "citation_author"))).filterMap
    (fun m => match m.content with
      | some c => if c = "" then none else some c
      | none => none)

namespace NberMetadataExtractor

/-- Embedding of `NberMetadataExtractor.extractAuthors`
(src/extension/source-integration/nber/index.ts). `superAuthors` stands for
the result of `super.extractAuthors()` in the base class (not under src/). -/
def extractAuthors (doc : DocModel) (superAuthors : String) : String :=
  let authors := citationAuthorList doc
  if authors.length > 0 then String.intercalate ", " authors
  else superAuthors

/-- Embedding of `NberMetadataExtractor.extractTags`: split the `keywords`
meta content on commas and trim each token. -/
def extractTags (doc : DocModel) : List String :=
  match getMetaContent doc (.byName "keywords") with
  | some keywords =>
    if keywords = "" then []
    else (jsSplit ',' keywords).map jsTrim
  | none => []

end NberMetadataExtractor

namespace AclAnthologyMetadataExtractor

/-- Embedding of `AclAnthologyMetadataExtractor.extractAuthors`
(src/extension/source-integration/acl-anthology/index.ts); the body is the
same citation-author push loop as the NBER extractor. -/
def extractAuthors (doc : DocModel) (superAuthors : String) : String :=
  let authors := citationAuthorList doc
  if authors.length > 0 then String.intercalate ", " authors
  else superAuthors

/-- Embedding of `AclAnthologyMetadataExtractor.extractTags`: split the
`keywords` meta content on commas and trim each token. -/
def extractTags (doc : DocModel) : List String :=
  match getMetaContent doc (.byName "keywords") with
  | some keywords =>
    if keywords = "" then []
    else (jsSplit ',' keywords).map jsTrim
  | none => []

end AclAnthologyMetadataExtractor

namespace IeeeMetadataExtractor

/-- Embedding of `IeeeMetadataExtractor.extractAuthors`: citation-author
meta tags first, then the DOM fallback over author elements, then
`super.extractAuthors()`. -/
def extractAuthors (doc : DocModel) (superAuthors : String) : String :=
  let authors := citationAuthorList doc
  if authors.length > 0 then String.intercalate ", " authors
  else if doc.ieeeAuthorEls.length > 0 then
    String.intercalate ", "
      (((doc.ieeeAuthorEls.filterMap (fun t => t.map jsTrim)).filter (fun s => s ≠ "")))
  else superAuthors

/-- Embedding of `IeeeMetadataExtractor.extractTags`: `citation_keywords`
falling back to `keywords`, split on `[,;]`, trimmed, empty tokens
dropped by `filter(Boolean)`. -/
def extractTags (doc : DocModel) : List String :=
  match jsOr (getMetaContent doc (.byName "citation_keywords"))
      (getMetaContent doc (.byName "keywords")) with
  | some keywords =>
    if keywords = "" then []
    else
      (((splitByCommaSemicolon keywords).map jsTrim).filter (fun t => t ≠ ""))
  | none => []

end IeeeMetadataExtractor

/-! ## URL pattern matching and paper-id extraction

The integrations' regexes are embedded as explicit scanners: a JS
`url.match(re)` tries the pattern at every start position and returns the
first match. Each pattern here is a literal part followed by character
classes that exclude `/`, so no backtracking is ever needed and the greedy
reading below is exact. -/

/-- JS `\w`: `[A-Za-z0-9_]`. -/
def isWordChar (c : Char) : Bool := c.isAlpha || c.isDigit || c = '_'

/-- The class `[\w.-]` from the ACL Anthology pattern. -/
def isWordDotDash (c : Char) : Bool := isWordChar c || c = '.' || c = '-'

/-- The class `[\w-]` from the newspapers patterns. -/
def isWordDash (c : Char) : Bool := isWordChar c || c = '-'

/-- The class `[A-Z0-9]` opening the ACL Anthology capture group. -/
def isAclStart (c : Char) : Bool := ('A' ≤ c && c ≤ 'Z') || c.isDigit

/-- Try a pattern of the shape `<literal><body>` at the start of `l`:
when the literal is present, run `body` on the remainder. -/
def tryPatAt (lit : List Char) (body : List Char → Option (List Char))
    (l : List Char) : Option (List Char) :=
  if leadsWith lit l then body (l.drop lit.length) else none

/-- Return the first position (leftmost, as JS `match`) where `f`
produces a match. -/
def scanFirst (f : List Char → Option (List Char)) : List Char → Option (List Char)
  | [] => f []
  | c :: cs =>
    match f (c :: cs) with
    | some r => some r
    | none => scanFirst f cs

/-- Body of `/aclanthology\.org\/([A-Z0-9][\w.-]+)\/?/` after the literal:
one `[A-Z0-9]` then one or more `[\w.-]`; the optional trailing `\/?` never
reaches the capture. Returns the capture group. -/
def aclBody (l : List Char) : Option (List Char) :=
  match l with
  | [] => none
  | d :: ds =>
    if isAclStart d then
      let run := ds.takeWhile isWordDotDash
      if run.isEmpty then none else some (d :: run)
    else none

/-- Body of `/nber\.org\/papers\/(w?\d+)/` after the literal: an optional
`w` then one or more digits. Returns the capture group. -/
def nberBody (l : List Char) : Option (List Char) :=
  match l with
  | [] => none
  | d :: ds =>
    if d = 'w' then
      let run := ds.takeWhile Char.isDigit
      if run.isEmpty then none else some (d :: run)
    else if d.isDigit then some (d :: ds.takeWhile Char.isDigit)
    else none

/-- JS `s.replace(/\/$/, '')`: strip one trailing slash. -/
def stripTrailingSlash (l : List Char) : List Char :=
  if l.getLast? = some '/' then l.dropLast else l

namespace AclAnthologyIntegration

/-- Embedding of `AclAnthologyIntegration.extractPaperId`: first match of
`/aclanthology\.org\/([A-Z0-9][\w.-]+)\/?/`, capture group 1, trailing
slash stripped from the captured id. -/
def extractPaperId (url : String) : Option String :=
  (scanFirst (tryPatAt "aclanthology.org/".data aclBody) url.data).map
    (fun cap => ⟨stripTrailingSlash cap⟩)

end AclAnthologyIntegration

namespace NberIntegration

/-- Embedding of `NberIntegration.extractPaperId`: first match of
`/nber\.org\/papers\/(w?\d+)/`, capture group 1. -/
def extractPaperId (url : String) : Option String :=
  (scanFirst (tryPatAt "nber.org/papers/".data nberBody) url.data).map
    (fun cap => ⟨cap⟩)

end NberIntegration

/-- Consume an exact literal. -/
def eatLit (lit l : List Char) : Option (List Char) :=
  if leadsWith lit l then some (l.drop lit.length) else none

/-- Consume exactly `n` digits (`\d{n}`). -/
def eatExactDigits : Nat → List Char → Option (List Char)
  | 0, l => some l
  | _ + 1, [] => none
  | n + 1, c :: cs => if c.isDigit then eatExactDigits n cs else none

/-- Consume one or more characters of a class (`[...]+`), greedily. The
classes used here never contain `/`, the character that always follows
them in the patterns, so greediness is exact. -/
def eatPlus (p : Char → Bool) (l : List Char) : Option (List Char) :=
  let run := l.takeWhile p
  if run.isEmpty then none else some (l.drop run.length)

/-- `/nytimes\.com\/\d{4}\/\d{2}\/\d{2}\/[\w-]+\/[\w-]+/` at one position. -/
def tryNytAt (l : List Char) : Bool :=
  (do
    let r1 ← eatLit "nytimes.com/".data l
    let r2 ← eatExactDigits 4 r1
    let r3 ← eatLit ['/'] r2
    let r4 ← eatExactDigits 2 r3
    let r5 ← eatLit ['/'] r4
    let r6 ← eatExactDigits 2 r5
    let r7 ← eatLit ['/'] r6
    let r8 ← eatPlus isWordDash r7
    let r9 ← eatLit ['/'] r8
    let _ ← eatPlus isWordDash r9
    pure ()).isSome

/-- `/newyorker\.com\/[\w-]+\/[\w-]+\/[\w-]+/` at one position. -/
def tryNewYorkerAt (l : List Char) : Bool :=
  (do
    let r1 ← eatLit "newyorker.com/".data l
    let r2 ← eatPlus isWordDash r1
    let r3 ← eatLit ['/'] r2
    let r4 ← eatPlus isWordDash r3
    let r5 ← eatLit ['/'] r4
    let _ ← eatPlus isWordDash r5
    pure ()).isSome

/-- `/theparisreview\.org\/[\w-]+\/\d+\/[\w-]+/` at one position. -/
def tryParisAt (l : List Char) : Bool :=
  (do
    let r1 ← eatLit "theparisreview.org/".data l
    let r2 ← eatPlus isWordDash r1
    let r3 ← eatLit ['/'] r2
    let r4 ← eatPlus Char.isDigit r3
    let r5 ← eatLit ['/'] r4
    let _ ← eatPlus isWordDash r5
    pure ()).isSome

/-- Whether a Boolean position matcher fires at any start position. -/
def scanAny (f : List Char → Bool) : List Char → Bool
  | [] => f []
  | c :: cs => f (c :: cs) || scanAny f cs

namespace NewspapersIntegration

/-- Modelled from the spec: `canHandleUrl` lives in the base
`BaseSourceIntegration` (base-source.ts, not under src/); per the spec it
returns true iff any of the integration's URL patterns (here the three
newspaper regexes from src) match the URL. -/
def canHandleUrl (url : String) : Bool :=
  scanAny tryNytAt url.data || scanAny tryNewYorkerAt url.data ||
    scanAny tryParisAt url.data

end NewspapersIntegration

/-- Modelled from the spec: URL normalization inside
`generatePaperIdFromUrl` (metadata-extractor.ts, not under src/); the spec
requires IDs to agree across trailing-slash / query-noise variants of a
URL, so normalization removes the query part and trailing slashes. -/
def normalizeUrl (url : String) : String :=
  ⟨((url.data.takeWhile (fun c => c ≠ '?')).reverse.dropWhile (fun c => c = '/')).reverse⟩

/-- A deterministic accumulator hash over characters. -/
def hashChars (l : List Char) : Nat :=
  l.foldl (fun h c => (h * 31 + c.toNat) % 1000000007) 7

/-- Modelled from the spec: `generatePaperIdFromUrl`
(metadata-extractor.ts, not under src/) is a deterministic,
collision-resistant hash of the normalized URL, usable as a storage key. -/
def generatePaperIdFromUrl (url : String) : String :=
  "url-" ++ toString (hashChars (normalizeUrl url).data)

namespace NewspapersIntegration

/-- Embedding of `NewspapersIntegration.extractPaperId`: a hash-based id
when one of the newspaper patterns matches, `null` otherwise. -/
def extractPaperId (url : String) : Option String :=
  if canHandleUrl url then some (generatePaperIdFromUrl url) else none

end NewspapersIntegration

/-! ## Helper lemmas about the JS string primitives -/

theorem leadsWith_append_self : ∀ (p t : List Char), leadsWith p (p ++ t) = true
  | [], _ => rfl
  | a :: as, t => by simp [leadsWith, leadsWith_append_self as t]

theorem leadsWith_false_of_lt : ∀ (p l : List Char), l.length < p.length →
    leadsWith p l = false
  | [], _, h => by simp at h
  | _ :: _, [], _ => rfl
  | a :: as, b :: bs, h => by
    simp only [leadsWith]
    rw [leadsWith_false_of_lt as bs (by simpa using h)]
    simp

theorem leadsWith_append_last : ∀ (p s : List Char) (c : Char), p.length ≤ s.length →
    leadsWith p (s ++ [c]) = leadsWith p s
  | [], _, _, _ => rfl
  | _ :: _, [], _, h => by simp at h
  | a :: as, b :: bs, c, h => by
    simp only [List.cons_append, leadsWith, List.append_eq]
    rw [leadsWith_append_last as bs c (by simpa using h)]

theorem takeWhile_append_last (p : Char → Bool) (c : Char) (hc : p c = false) :
    ∀ xs : List Char, (xs ++ [c]).takeWhile p = xs.takeWhile p
  | [] => by simp [List.takeWhile_cons, hc]
  | x :: xs => by
    simp only [List.cons_append, List.takeWhile_cons]
    cases hx : p x
    · simp
    · simp [takeWhile_append_last p c hc xs]

theorem splitCharList_no_sep (sep : Char) : ∀ (l : List Char), sep ∉ l →
    splitCharList sep l = [l]
  | [], _ => rfl
  | c :: cs, h => by
    have hc : c ≠ sep := fun hc => h (hc ▸ List.mem_cons_self c cs)
    have ih := splitCharList_no_sep sep cs (fun hm => h (List.mem_cons_of_mem c hm))
    simp [splitCharList, ih, hc]

theorem splitCharList_append_sep (sep : Char) : ∀ (a b : List Char), sep ∉ a →
    splitCharList sep (a ++ sep :: b) = a :: splitCharList sep b
  | [], b, _ => by simp [splitCharList]
  | c :: cs, b, h => by
    have hc : c ≠ sep := fun hc => h (hc ▸ List.mem_cons_self c cs)
    have ih := splitCharList_append_sep sep cs b (fun hm => h (List.mem_cons_of_mem c hm))
    simp only [List.cons_append, splitCharList, ih]
    rw [if_neg hc]
    simp [ih]

theorem trimList_eq_rdropWhile (l : List Char) :
    trimList l = List.rdropWhile isJsSpace (l.dropWhile isJsSpace) := rfl

theorem takeWhile_eq_self_of_length (p : Char → Bool) :
    ∀ u : List Char, (u.takeWhile p).length = u.length → u.takeWhile p = u
  | [], _ => rfl
  | x :: xs, h => by
    cases hx : p x
    · rw [List.takeWhile_cons_of_neg (by simp [hx])] at h
      simp at h
    · rw [List.takeWhile_cons_of_pos hx] at h ⊢
      simp only [List.length_cons, Nat.add_right_cancel_iff] at h
      rw [takeWhile_eq_self_of_length p xs h]

theorem dropWhile_trimList (l : List Char) :
    (trimList l).dropWhile isJsSpace = trimList l := by
  rw [trimList_eq_rdropWhile]
  set m := l.dropWhile isJsSpace with hm
  have hmself : m.dropWhile isJsSpace = m := by
    rw [hm]; exact List.dropWhile_idempotent _ _
  have hsuf : (List.rdropWhile isJsSpace m).reverse <:+ m.reverse := by
    rw [List.rdropWhile, List.reverse_reverse]
    exact List.dropWhile_suffix _
  have hpre : List.rdropWhile isJsSpace m <+: m := by
    rw [← List.reverse_suffix]
    exact hsuf
  obtain ⟨t, ht⟩ := hpre
  cases hr : List.rdropWhile isJsSpace m with
  | nil => simp
  | cons a as =>
    rw [hr] at ht
    have hma : m = a :: (as ++ t) := by rw [← ht]; rfl
    have ha : isJsSpace a = false := by
      cases hax : isJsSpace a
      · rfl
      · exfalso
        rw [hma, List.dropWhile_cons_of_pos hax] at hmself
        have hlen := congrArg List.length hmself
        have hle : ((as ++ t).dropWhile isJsSpace).length ≤ (as ++ t).length :=
          (List.dropWhile_suffix isJsSpace :
            (as ++ t).dropWhile isJsSpace <:+ (as ++ t)).length_le
        simp only [List.length_cons] at hlen
        omega
    rw [List.dropWhile_cons_of_neg (by simp [ha])]

theorem trimList_idem (l : List Char) : trimList (trimList l) = trimList l := by
  rw [trimList_eq_rdropWhile (trimList l), dropWhile_trimList, trimList_eq_rdropWhile l]
  exact List.rdropWhile_idempotent _ _

theorem jsTrim_idem (s : String) : jsTrim (jsTrim s) = jsTrim s :=
  congrArg String.mk (trimList_idem s.data)

theorem jsToLower_append (a b : String) :
    jsToLower (a ++ b) = jsToLower a ++ jsToLower b := by
  apply String.ext
  simp [jsToLower]

theorem string_mk_data (s : String) : String.mk s.data = s := rfl

/-! ## Helper lemmas for the URL-pattern scanners -/

theorem tryPatAt_append_slash (lit : List Char) (body : List Char → Option (List Char))
    (hnil : body [] = none) (hbody : ∀ t, body (t ++ ['/']) = body t) (s : List Char) :
    tryPatAt lit body (s ++ ['/']) = tryPatAt lit body s := by
  by_cases h : lit.length ≤ s.length
  · rw [tryPatAt, tryPatAt, leadsWith_append_last lit s '/' h]
    by_cases hl : leadsWith lit s = true
    · rw [if_pos hl, if_pos hl, List.drop_append_of_le_length h, hbody]
    · rw [if_neg (by simpa using hl), if_neg (by simpa using hl)]
  · have hs : leadsWith lit s = false := leadsWith_false_of_lt lit s (by omega)
    by_cases h2 : leadsWith lit (s ++ ['/']) = true
    · have hlen : lit.length ≤ s.length + 1 := by
        by_contra hc
        have hlt : (s ++ ['/']).length < lit.length := by
          simp only [List.length_append, List.length_cons, List.length_nil]
          omega
        rw [leadsWith_false_of_lt _ _ hlt] at h2
        exact absurd h2 (by simp)
      have hdrop : (s ++ ['/']).drop lit.length = [] := by
        apply List.drop_eq_nil_of_le
        simp only [List.length_append, List.length_cons, List.length_nil]
        omega
      rw [tryPatAt, tryPatAt, if_pos h2, hdrop, hnil, hs]
      simp
    · rw [tryPatAt, tryPatAt, hs]
      rw [if_neg h2]
      simp

theorem scanFirst_append_slash (f : List Char → Option (List Char))
    (hf : ∀ s, f (s ++ ['/']) = f s) :
    ∀ l : List Char, scanFirst f (l ++ ['/']) = scanFirst f l
  | [] => by
    have h : f ['/'] = f [] := by simpa using hf []
    show (match f ['/'] with
          | some r => some r
          | none => scanFirst f []) = f []
    rw [h]
    cases hv : f [] <;> simp [scanFirst, hv]
  | c :: cs => by
    have ih := scanFirst_append_slash f hf cs
    show (match f ((c :: cs) ++ ['/']) with
          | some r => some r
          | none => scanFirst f (cs ++ ['/'])) =
        (match f (c :: cs) with
          | some r => some r
          | none => scanFirst f cs)
    rw [hf (c :: cs), ih]

theorem aclBody_append_slash (t : List Char) : aclBody (t ++ ['/']) = aclBody t := by
  cases t with
  | nil => decide
  | cons d ds =>
    simp only [List.cons_append, aclBody]
    rw [takeWhile_append_last isWordDotDash '/' (by decide) ds]

theorem nberBody_append_slash (t : List Char) : nberBody (t ++ ['/']) = nberBody t := by
  cases t with
  | nil => decide
  | cons d ds =>
    simp only [List.cons_append, nberBody]
    rw [takeWhile_append_last Char.isDigit '/' (by decide) ds]

theorem normalizeUrl_append_slash (url : String) :
    normalizeUrl (url ++ "/") = normalizeUrl url := by
  apply String.ext
  show (((url.data ++ ['/']).takeWhile _).reverse.dropWhile _).reverse =
      ((url.data.takeWhile _).reverse.dropWhile _).reverse
  rw [List.takeWhile_append]
  by_cases h : ((url.data.takeWhile fun c => decide ¬c = '?').length = url.data.length)
  · rw [if_pos h, takeWhile_eq_self_of_length _ _ h]
    have : List.takeWhile (fun c => decide ¬c = '?') ['/'] = ['/'] := by decide
    rw [this]
    simp only [List.reverse_append, List.reverse_cons, List.reverse_nil, List.nil_append,
      List.singleton_append]
    rw [List.dropWhile_cons_of_pos (by decide)]
  · rw [if_neg h]


/-! ## Claim theorems: the frontend trust check -/

theorem owner_slash_repo_ne_empty (owner repo : String) : owner ++ "/" ++ repo ≠ "" := by
  intro h
  have hd := congrArg String.data h
  simp [String.data_append] at hd

theorem jsSplit_owner_repo (owner repo : String)
    (h1 : '/' ∉ owner.data) (h2 : '/' ∉ repo.data) :
    jsSplit '/' (owner ++ "/" ++ repo) = [owner, repo] := by
  unfold jsSplit
  have hd : (owner ++ "/" ++ repo).data = owner.data ++ '/' :: repo.data := by
    simp [String.data_append]
  rw [hd, splitCharList_append_sep '/' _ _ h1, splitCharList_no_sep '/' _ h2]
  simp [string_mk_data]

/-- C1 (amended): with a well-formed configured `owner/repo` and a sender URL
whose hostname is parser-normalised to lower case, the trust check accepts
exactly the URLs allowed by the spec condition with BOTH host and path
compared case-insensitively. -/
theorem isTrustedFrontendUrl_iff_spec (owner repo : String) (u : SenderUrl)
    (howner : owner ≠ "") (hrepo : repo ≠ "")
    (hw1 : '/' ∉ owner.data) (hw2 : '/' ∉ repo.data)
    (hnorm : hostLowered u = true) :
    isTrustedFrontendUrl (owner ++ "/" ++ repo) u = trustedFrontendSpecCI owner repo u := by
  cases u with
  | missing => rfl
  | unparseable s => rfl
  | parsed p =>
    have hne := owner_slash_repo_ne_empty owner repo
    have hsplit := jsSplit_owner_repo owner repo hw1 hw2
    have hgh : jsToLower (owner ++ ".github.io") = jsToLower owner ++ ".github.io" := by
      rw [jsToLower_append]
      rfl
    have hnormp : jsToLower p.hostname = p.hostname := by
      simpa [hostLowered] using hnorm
    simp only [isTrustedFrontendUrl, trustedFrontendSpecCI, hsplit, if_neg hne]
    simp only [List.headD_cons, List.drop_succ_cons, List.drop_zero]
    rw [if_neg (by simp [howner, hrepo])]
    rw [hgh, hnormp]

/-- C1 witness: a concrete trusted GitHub Pages URL on which the theorem's
hypotheses hold and the trust check agrees with the amended condition. -/
theorem isTrustedFrontendUrl_iff_spec_witness :
    isTrustedFrontendUrl ("owner" ++ "/" ++ "repo")
        (.parsed ⟨"owner.github.io", "/repo/index.html"⟩) =
      trustedFrontendSpecCI "owner" "repo"
        (.parsed ⟨"owner.github.io", "/repo/index.html"⟩) ∧
    isTrustedFrontendUrl ("owner" ++ "/" ++ "repo")
        (.parsed ⟨"owner.github.io", "/repo/index.html"⟩) = true :=
  ⟨isTrustedFrontendUrl_iff_spec "owner" "repo" _
      (by decide) (by decide) (by decide) (by decide) (by decide),
    by decide⟩

/-- C1 counterexample: the code compares the URL path case-insensitively
(it lowercases `parsedUrl.pathname`), so the sender URL
`https://owner.github.io/Repo/x` is accepted for repo `owner/repo` even
though its path neither equals `/repo`(`/`) nor is nested under `/repo/`
when compared literally as the claim states, and the hostname is not a
local-development host. -/
theorem isTrustedFrontendUrl_path_case_counterexample :
    isTrustedFrontendUrl "owner/repo" (.parsed ⟨"owner.github.io", "/Repo/x"⟩) = true ∧
    trustedFrontendSpec "owner" "repo" (.parsed ⟨"owner.github.io", "/Repo/x"⟩) = false := by
  decide

/-- C9: when the configured `githubRepo` is empty or has no `/` separating
owner and repo, the trust check rejects every sender URL, including
localhost and 127.0.0.1 ones. -/
theorem isTrustedFrontendUrl_false_without_owner_repo (githubRepo : String) (u : SenderUrl)
    (h : githubRepo = "" ∨ '/' ∉ githubRepo.data) :
    isTrustedFrontendUrl githubRepo u = false := by
  cases u with
  | missing => rfl
  | unparseable s => rfl
  | parsed p =>
    rcases h with h | h
    · simp [isTrustedFrontendUrl, h]
    · by_cases he : githubRepo = ""
      · simp [isTrustedFrontendUrl, he]
      · have hsplit : jsSplit '/' githubRepo = [githubRepo] := by
          unfold jsSplit
          rw [splitCharList_no_sep '/' _ h]
          simp [string_mk_data]
      
        simp [isTrustedFrontendUrl, hsplit, he]

/-- C9 witness: a slash-free repo string and a localhost sender URL. -/
theorem isTrustedFrontendUrl_false_without_owner_repo_witness :
    ('/' ∉ ("ownerrepo" : String).data) ∧
    isTrustedFrontendUrl "ownerrepo" (.parsed ⟨"localhost", "/"⟩) = false ∧
    isTrustedFrontendUrl "" (.parsed ⟨"127.0.0.1", "/"⟩) = false :=
  ⟨by decide,
    isTrustedFrontendUrl_false_without_owner_repo "ownerrepo"
      (.parsed ⟨"localhost", "/"⟩) (Or.inr (by decide)),
    isTrustedFrontendUrl_false_without_owner_repo ""
      (.parsed ⟨"127.0.0.1", "/"⟩) (Or.inl rfl)⟩

/-- C2: when the sender URL fails the trust check, both frontend handlers
respond success=false with error "Untrusted frontend origin" and issue no
store call at all. -/
theorem untrusted_sender_rejected_without_store_call (githubRepo : String)
    (cfg : Bool) (upd : Except String Unit) (client : ClientOracle)
    (mpk mmr : Option String) (u : SenderUrl)
    (h : isTrustedFrontendUrl githubRepo u = false) :
    handleFrontendUpdateManualReadStatus githubRepo cfg upd mpk mmr u =
      (⟨false, some "Untrusted frontend origin"⟩, []) ∧
    handleFrontendDeletePaper githubRepo cfg client mpk u =
      (⟨false, some "Untrusted frontend origin"⟩, []) := by
  constructor
  · simp [handleFrontendUpdateManualReadStatus, h]
  · simp [handleFrontendDeletePaper, h]

/-- C2 witness: a `https://evil.example/` sender with a valid key is
rejected by both handlers with no store call. -/
theorem untrusted_sender_rejected_without_store_call_witness :
    isTrustedFrontendUrl "owner/repo" (.parsed ⟨"evil.example", "/"⟩) = false ∧
    handleFrontendUpdateManualReadStatus "owner/repo" true (.ok ())
        (some "paper:x") (some "2023-05-01") (.parsed ⟨"evil.example", "/"⟩) =
      (⟨false, some "Untrusted frontend origin"⟩, []) ∧
    handleFrontendDeletePaper "owner/repo" true
        ⟨fun _ => .ok [1], fun _ => .ok (), fun _ => .ok ()⟩
        (some "paper:x") (.parsed ⟨"evil.example", "/"⟩) =
      (⟨false, some "Untrusted frontend origin"⟩, []) :=
  ⟨by decide,
    (untrusted_sender_rejected_without_store_call "owner/repo" true (.ok ())
      ⟨fun _ => .ok [1], fun _ => .ok (), fun _ => .ok ()⟩
      (some "paper:x") (some "2023-05-01") (.parsed ⟨"evil.example", "/"⟩) (by decide)).1,
    (untrusted_sender_rejected_without_store_call "owner/repo" true (.ok ())
      ⟨fun _ => .ok [1], fun _ => .ok (), fun _ => .ok ()⟩
      (some "paper:x") (some "2023-05-01") (.parsed ⟨"evil.example", "/"⟩) (by decide)).2⟩

/-! ## Claim theorems: manual read-status handler and key derivation -/

/-- C3 counterexample: with a trusted sender, a non-empty key and the valid
date "2023-05-01", but GitHub sync not configured (repo set in options,
token absent, so `paperManager` is null), the value passes validation yet
NO store update is attempted — the call list is empty — contradicting the
claim that a valid value always leads to an attempted store update. -/
theorem frontendUpdateManualReadStatus_unconfigured_counterexample :
    isTrustedFrontendUrl "owner/repo" (.parsed ⟨"owner.github.io", "/repo/"⟩) = true ∧
    jsTrim "paper:2301.00001" ≠ "" ∧
    matchesReadDatePattern "2023-05-01" = true ∧
    handleFrontendUpdateManualReadStatus "owner/repo" false (.ok ())
        (some "paper:2301.00001") (some "2023-05-01")
        (.parsed ⟨"owner.github.io", "/repo/"⟩) =
      (⟨false, some "GitHub sync is not configured in extension options"⟩, []) := by
  decide

/-- C3 (amended): for a trusted sender and non-empty key, a string not
matching `YYYY-MM-DD` yields the "Invalid manuallyRead date format" error
with no store call; a matching string or null passes validation and — when
GitHub sync is configured — the `updateObject` store call is made. -/
theorem frontendUpdateManualReadStatus_date_validation (githubRepo : String)
    (cfg : Bool) (upd : Except String Unit) (k : String) (u : SenderUrl)
    (htrust : isTrustedFrontendUrl githubRepo u = true)
    (hkey : jsTrim k ≠ "") :
    (∀ s : String, matchesReadDatePattern s = false →
      handleFrontendUpdateManualReadStatus githubRepo cfg upd (some k) (some s) u =
        (⟨false, some "Invalid manuallyRead date format"⟩, [])) ∧
    (∀ mr : Option String, (∀ s : String, mr = some s → matchesReadDatePattern s = true) →
      cfg = true →
      (handleFrontendUpdateManualReadStatus githubRepo cfg upd (some k) mr u).2 =
        [StoreCall.updateObject (jsTrim k) mr]) := by
  constructor
  · intro s hs
    simp [handleFrontendUpdateManualReadStatus, htrust, hkey, hs]
  · intro mr hmr hcfg
    subst hcfg
    cases mr with
    | none =>
      cases upd <;>
        simp [handleFrontendUpdateManualReadStatus, htrust, hkey]
    | some s =>
      have hsp := hmr s rfl
      cases upd <;>
        simp [handleFrontendUpdateManualReadStatus, htrust, hkey, hsp]

/-- C3 witness: concrete instances of both halves — "05-01-2023" is
rejected with the date-format error and no store call, while "2023-05-01"
reaches the store update when sync is configured. -/
theorem frontendUpdateManualReadStatus_date_validation_witness :
    handleFrontendUpdateManualReadStatus "owner/repo" true (.ok ())
        (some "paper:x") (some "05-01-2023") (.parsed ⟨"owner.github.io", "/repo/"⟩) =
      (⟨false, some "Invalid manuallyRead date format"⟩, []) ∧
    (handleFrontendUpdateManualReadStatus "owner/repo" true (.ok ())
        (some "paper:x") (some "2023-05-01") (.parsed ⟨"owner.github.io", "/repo/"⟩)).2 =
      [StoreCall.updateObject (jsTrim "paper:x") (some "2023-05-01")] :=
  ⟨(frontendUpdateManualReadStatus_date_validation "owner/repo" true (.ok ())
      "paper:x" (.parsed ⟨"owner.github.io", "/repo/"⟩) (by decide) (by decide)).1
      "05-01-2023" (by decide),
    (frontendUpdateManualReadStatus_date_validation "owner/repo" true (.ok ())
      "paper:x" (.parsed ⟨"owner.github.io", "/repo/"⟩) (by decide) (by decide)).2
      (some "2023-05-01") (fun s hs => by cases hs; decide) rfl⟩

/-- C4: a key starting with `paper:` maps to `interactions:` plus the
remainder, a key starting with `paper.` maps to `interactions.` plus the
remainder, and a key starting with neither yields no interaction key. -/
theorem toInteractionObjectId_spec :
    (∀ rest : String,
      toInteractionObjectId ("paper:" ++ rest) = some ("interactions:" ++ rest)) ∧
    (∀ rest : String,
      toInteractionObjectId ("paper." ++ rest) = some ("interactions." ++ rest)) ∧
    (∀ k : String, jsStartsWith k "paper:" = false → jsStartsWith k "paper." = false →
      toInteractionObjectId k = none) := by
  refine ⟨fun rest => ?_, fun rest => ?_, fun k h1 h2 => ?_⟩
  · have hsw : jsStartsWith ("paper:" ++ rest) "paper:" = true := by
      unfold jsStartsWith
      rw [String.data_append]
      exact leadsWith_append_self _ _
    have hslice : jsSlice ("paper:" ++ rest) "paper:".length = rest := by
      unfold jsSlice
      rw [String.data_append, List.drop_left' (by rfl)]
    rw [toInteractionObjectId, if_pos hsw, hslice]
  · have hns : jsStartsWith ("paper." ++ rest) "paper:" = false := by
      unfold jsStartsWith
      rw [String.data_append]
      show leadsWith ['p', 'a', 'p', 'e', 'r', ':']
        (['p', 'a', 'p', 'e', 'r', '.'] ++ rest.data) = false
      simp [leadsWith]
    have hsw : jsStartsWith ("paper." ++ rest) "paper." = true := by
      unfold jsStartsWith
      rw [String.data_append]
      exact leadsWith_append_self _ _
    have hslice : jsSlice ("paper." ++ rest) "paper.".length = rest := by
      unfold jsSlice
      rw [String.data_append, List.drop_left' (by rfl)]
    rw [toInteractionObjectId, if_neg (by simp [hns]), if_pos hsw, hslice]
  · rw [toInteractionObjectId, if_neg (by simp [h1]), if_neg (by simp [h2])]

/-- C4 witness: the three cases at concrete keys. -/
theorem toInteractionObjectId_spec_witness :
    toInteractionObjectId ("paper:" ++ "w31549") = some ("interactions:" ++ "w31549") ∧
    toInteractionObjectId ("paper." ++ "w31549") = some ("interactions." ++ "w31549") ∧
    toInteractionObjectId "nber.w31549" = none :=
  ⟨toInteractionObjectId_spec.1 "w31549",
    toInteractionObjectId_spec.2.1 "w31549",
    toInteractionObjectId_spec.2.2 "nber.w31549" (by decide) (by decide)⟩

/-! ## Claim theorems: the frontend delete handler -/

/-- C5: when the trusted, validated delete request archives the primary
record successfully and the attempt to archive the derived interaction-log
record throws, the handler still responds success=true; and a successful
archive consists exactly of the issue lookup, adding the `archived` label
and closing the issue — no erasing call exists. -/
theorem frontendDeletePaper_interaction_best_effort (githubRepo : String)
    (client : ClientOracle) (k : String) (u : SenderUrl)
    (htrust : isTrustedFrontendUrl githubRepo u = true)
    (hkey : jsTrim k ≠ "")
    (pcalls : List StoreCall)
    (hprimary : archiveObjectById client (jsTrim k) = (.ok true, pcalls))
    (interactionsKey : String)
    (hik : toInteractionObjectId (jsTrim k) = some interactionsKey)
    (e : String)
    (herr : (archiveObjectById client interactionsKey).1 = .error e) :
    (handleFrontendDeletePaper githubRepo true client (some k) u).1 = ⟨true, none⟩ ∧
    (handleFrontendDeletePaper githubRepo true client (some k) u).2 =
      pcalls ++ (archiveObjectById client interactionsKey).2 ∧
    ∃ n : Nat, n ≠ 0 ∧
      pcalls = [StoreCall.fetchIssues ("stored-object,UID:" ++ jsTrim k),
        StoreCall.addLabels n ["archived"], StoreCall.closeIssue n] := by
  have hmain : handleFrontendDeletePaper githubRepo true client (some k) u =
      (⟨true, none⟩, pcalls ++ (archiveObjectById client interactionsKey).2) := by
    simp [handleFrontendDeletePaper, htrust, hkey, hprimary, hik]
  refine ⟨by rw [hmain], by rw [hmain], ?_⟩
  unfold archiveObjectById findIssueNumberForObject at hprimary
  cases hf : client.fetchIssues ("stored-object,UID:" ++ jsTrim k) with
  | error e2 => rw [hf] at hprimary; simp at hprimary
  | ok issues =>
    rw [hf] at hprimary
    cases issues with
    | nil => simp at hprimary
    | cons n rest =>
      by_cases hn : n = 0
      · subst hn; simp at hprimary
      · refine ⟨n, hn, ?_⟩
        simp only [List.head?_cons] at hprimary
        rw [if_neg hn] at hprimary
        cases hal : client.addLabels n with
        | error e3 => rw [hal] at hprimary; simp at hprimary
        | ok v =>
          rw [hal] at hprimary
          cases hcl : client.closeIssue n with
          | error e4 => rw [hcl] at hprimary; simp at hprimary
          | ok w =>
            rw [hcl] at hprimary
            have h2 := congrArg Prod.snd hprimary
            simp only [] at h2
            exact h2.symm

/-- C5 witness: a concrete run where the primary archive succeeds on issue
5 and the interaction-log lookup throws `boom`, yet the delete succeeds. -/
theorem frontendDeletePaper_interaction_best_effort_witness :
    (handleFrontendDeletePaper "owner/repo" true
        ⟨fun objectId => if objectId = "stored-object,UID:paper:x" then .ok [5]
          else .error "boom", fun _ => .ok (), fun _ => .ok ()⟩
        (some "paper:x") (.parsed ⟨"owner.github.io", "/repo/"⟩)).1 = ⟨true, none⟩ ∧
    (handleFrontendDeletePaper "owner/repo" true
        ⟨fun objectId => if objectId = "stored-object,UID:paper:x" then .ok [5]
          else .error "boom", fun _ => .ok (), fun _ => .ok ()⟩
        (some "paper:x") (.parsed ⟨"owner.github.io", "/repo/"⟩)).2 =
      [StoreCall.fetchIssues ("stored-object,UID:" ++ jsTrim "paper:x"),
        StoreCall.addLabels 5 ["archived"], StoreCall.closeIssue 5] ++
      (archiveObjectById
        ⟨fun objectId => if objectId = "stored-object,UID:paper:x" then .ok [5]
          else .error "boom", fun _ => .ok (), fun _ => .ok ()⟩ "interactions:x").2 :=
  ⟨(frontendDeletePaper_interaction_best_effort "owner/repo"
      ⟨fun objectId => if objectId = "stored-object,UID:paper:x" then .ok [5]
        else .error "boom", fun _ => .ok (), fun _ => .ok ()⟩
      "paper:x" (.parsed ⟨"owner.github.io", "/repo/"⟩) (by decide) (by decide)
      [StoreCall.fetchIssues ("stored-object,UID:" ++ jsTrim "paper:x"),
        StoreCall.addLabels 5 ["archived"], StoreCall.closeIssue 5]
      (by rfl) "interactions:x" (by rfl) "boom" (by rfl)).1,
    (frontendDeletePaper_interaction_best_effort "owner/repo"
      ⟨fun objectId => if objectId = "stored-object,UID:paper:x" then .ok [5]
        else .error "boom", fun _ => .ok (), fun _ => .ok ()⟩
      "paper:x" (.parsed ⟨"owner.github.io", "/repo/"⟩) (by decide) (by decide)
      [StoreCall.fetchIssues ("stored-object,UID:" ++ jsTrim "paper:x"),
        StoreCall.addLabels 5 ["archived"], StoreCall.closeIssue 5]
      (by rfl) "interactions:x" (by rfl) "boom" (by rfl)).2.1⟩

/-- C10: a trusted, validated delete request whose key has no persisted
object (the issue lookup returns nothing) responds success=false with
"Paper not found in store", and the only store call made is that single
lookup — the interaction-log record is never touched. -/
theorem frontendDeletePaper_not_found (githubRepo : String)
    (client : ClientOracle) (k : String) (u : SenderUrl)
    (htrust : isTrustedFrontendUrl githubRepo u = true)
    (hkey : jsTrim k ≠ "")
    (hfetch : client.fetchIssues ("stored-object,UID:" ++ jsTrim k) = .ok []) :
    handleFrontendDeletePaper githubRepo true client (some k) u =
      (⟨false, some "Paper not found in store"⟩,
        [StoreCall.fetchIssues ("stored-object,UID:" ++ jsTrim k)]) := by
  have harch : archiveObjectById client (jsTrim k) =
      (.ok false, [StoreCall.fetchIssues ("stored-object,UID:" ++ jsTrim k)]) := by
    unfold archiveObjectById findIssueNumberForObject
    rw [hfetch]
    rfl
  simp [handleFrontendDeletePaper, htrust, hkey, harch]

/-- C10 witness: a concrete empty store. -/
theorem frontendDeletePaper_not_found_witness :
    handleFrontendDeletePaper "owner/repo" true
        ⟨fun _ => .ok [], fun _ => .ok (), fun _ => .ok ()⟩
        (some "paper:x") (.parsed ⟨"owner.github.io", "/repo/"⟩) =
      (⟨false, some "Paper not found in store"⟩,
        [StoreCall.fetchIssues ("stored-object,UID:" ++ jsTrim "paper:x")]) :=
  frontendDeletePaper_not_found "owner/repo"
    ⟨fun _ => .ok [], fun _ => .ok (), fun _ => .ok ()⟩
    "paper:x" (.parsed ⟨"owner.github.io", "/repo/"⟩) (by decide) (by decide) (by rfl)

/-! ## Claim theorems: metadata extractors -/

/-- C6: whenever a document carries several `citation_author` meta tags
with non-empty content, each of the NBER, ACL Anthology and IEEE
`extractAuthors` returns all of them joined in document order with ", ",
regardless of what the base-class fallback would return. -/
theorem extractAuthors_joins_all_citation_authors (doc : DocModel) (superAuthors : String)
    (h : 2 ≤ (citationAuthorList doc).length) :
    NberMetadataExtractor.extractAuthors doc superAuthors =
      String.intercalate ", " (citationAuthorList doc) ∧
    AclAnthologyMetadataExtractor.extractAuthors doc superAuthors =
      String.intercalate ", " (citationAuthorList doc) ∧
    IeeeMetadataExtractor.extractAuthors doc superAuthors =
      String.intercalate ", " (citationAuthorList doc) := by
  have h0 : (citationAuthorList doc).length > 0 := by omega
  refine ⟨?_, ?_, ?_⟩
  · rw [NberMetadataExtractor.extractAuthors, if_pos h0]
  · rw [AclAnthologyMetadataExtractor.extractAuthors, if_pos h0]
  · rw [IeeeMetadataExtractor.extractAuthors, if_pos h0]

/-- C6 witness: the spec's example document with authors "A. Smith" and
"B. Lee" yields "A. Smith, B. Lee" from all three extractors. -/
theorem extractAuthors_joins_all_citation_authors_witness :
    NberMetadataExtractor.extractAuthors
        ⟨[⟨some "citation_author", none, some "A. Smith"⟩,
          ⟨some "citation_author", none, some "B. Lee"⟩], []⟩ "fallback" =
      "A. Smith, B. Lee" ∧
    AclAnthologyMetadataExtractor.extractAuthors
        ⟨[⟨some "citation_author", none, some "A. Smith"⟩,
          ⟨some "citation_author", none, some "B. Lee"⟩], []⟩ "fallback" =
      "A. Smith, B. Lee" ∧
    IeeeMetadataExtractor.extractAuthors
        ⟨[⟨some "citation_author", none, some "A. Smith"⟩,
          ⟨some "citation_author", none, some "B. Lee"⟩], []⟩ "fallback" =
      "A. Smith, B. Lee" := by
  have h := extractAuthors_joins_all_citation_authors
    ⟨[⟨some "citation_author", none, some "A. Smith"⟩,
      ⟨some "citation_author", none, some "B. Lee"⟩], []⟩ "fallback" (by decide)
  refine ⟨?_, ?_, ?_⟩
  · rw [h.1]; decide
  · rw [h.2.1]; decide
  · rw [h.2.2]; decide

/-- C7 counterexample: on a document whose `keywords` meta content is
`"a,,b"`, the NBER and ACL Anthology `extractTags` return `["a", "", "b"]`
— the empty token is NOT dropped, contradicting the claim that the
returned tag sequence never contains an empty string. -/
theorem extractTags_empty_token_counterexample :
    NberMetadataExtractor.extractTags ⟨[⟨some "keywords", none, some "a,,b"⟩], []⟩ =
      ["a", "", "b"] ∧
    AclAnthologyMetadataExtractor.extractTags ⟨[⟨some "keywords", none, some "a,,b"⟩], []⟩ =
      ["a", "", "b"] ∧
    ("" ∈ NberMetadataExtractor.extractTags ⟨[⟨some "keywords", none, some "a,,b"⟩], []⟩) := by
  decide

/-- C7 (amended): every tag returned by the NBER, ACL Anthology and IEEE
`extractTags` is whitespace-trimmed; the IEEE extractor additionally drops
empty tokens, so its result never contains an empty string, while the NBER
and ACL Anthology extractors keep empty tokens. -/
theorem extractTags_trims_every_token (doc : DocModel) :
    (∀ t ∈ NberMetadataExtractor.extractTags doc, jsTrim t = t) ∧
    (∀ t ∈ AclAnthologyMetadataExtractor.extractTags doc, jsTrim t = t) ∧
    (∀ t ∈ IeeeMetadataExtractor.extractTags doc, jsTrim t = t ∧ t ≠ "") := by
  refine ⟨?_, ?_, ?_⟩
  · intro t ht
    rw [NberMetadataExtractor.extractTags] at ht
    cases hk : getMetaContent doc (.byName "keywords") with
    | none => rw [hk] at ht; simp at ht
    | some ks =>
      rw [hk] at ht
      have ht2 : t ∈ (if ks = "" then ([] : List String) else (jsSplit ',' ks).map jsTrim) := ht
      by_cases he : ks = ""
      · rw [if_pos he] at ht2; simp at ht2
      · rw [if_neg he] at ht2
        obtain ⟨x, _, hx⟩ := List.mem_map.mp ht2
        rw [← hx]
        exact jsTrim_idem x
  · intro t ht
    rw [AclAnthologyMetadataExtractor.extractTags] at ht
    cases hk : getMetaContent doc (.byName "keywords") with
    | none => rw [hk] at ht; simp at ht
    | some ks =>
      rw [hk] at ht
      have ht2 : t ∈ (if ks = "" then ([] : List String) else (jsSplit ',' ks).map jsTrim) := ht
      by_cases he : ks = ""
      · rw [if_pos he] at ht2; simp at ht2
      · rw [if_neg he] at ht2
        obtain ⟨x, _, hx⟩ := List.mem_map.mp ht2
        rw [← hx]
        exact jsTrim_idem x
  · intro t ht
    rw [IeeeMetadataExtractor.extractTags] at ht
    cases hk : jsOr (getMetaContent doc (.byName "citation_keywords"))
        (getMetaContent doc (.byName "keywords")) with
    | none => rw [hk] at ht; simp at ht
    | some ks =>
      rw [hk] at ht
      have ht2 : t ∈ (if ks = "" then ([] : List String)
        else ((splitByCommaSemicolon ks).map jsTrim).filter (fun t => t ≠ "")) := ht
      by_cases he : ks = ""
      · rw [if_pos he] at ht2; simp at ht2
      · rw [if_neg he] at ht2
        have hmem := List.mem_filter.mp ht2
        obtain ⟨x, _, hx⟩ := List.mem_map.mp hmem.1
        refine ⟨?_, by simpa using hmem.2⟩
        rw [← hx]
        exact jsTrim_idem x

/-- C7 witness: concrete tags from a document with whitespace-padded
keywords are trimmed, and the IEEE result contains no empty string. -/
theorem extractTags_trims_every_token_witness :
    jsTrim "a" = "a" ∧ (jsTrim "b" = "b" ∧ "b" ≠ "") :=
  ⟨(extractTags_trims_every_token ⟨[⟨some "keywords", none, some " a , b "⟩], []⟩).1
      "a" (by decide),
    (extractTags_trims_every_token ⟨[⟨some "keywords", none, some " a ; b "⟩], []⟩).2.2
      "b" (by decide)⟩

/-! ## Claim theorems: paper-id extraction -/

/-- C8: `extractPaperId` is deterministic (equal on repeated calls with the
same URL), and URLs differing only by a trailing slash yield the identical
id: unconditionally for the ACL Anthology and NBER integrations, and for
the newspapers integration whenever its patterns cover both URLs. -/
theorem extractPaperId_deterministic_slash_invariant :
    (∀ url : String, AclAnthologyIntegration.extractPaperId url =
        AclAnthologyIntegration.extractPaperId url) ∧
    (∀ url : String, NberIntegration.extractPaperId url =
        NberIntegration.extractPaperId url) ∧
    (∀ url : String, NewspapersIntegration.extractPaperId url =
        NewspapersIntegration.extractPaperId url) ∧
    (∀ url : String, AclAnthologyIntegration.extractPaperId (url ++ "/") =
        AclAnthologyIntegration.extractPaperId url) ∧
    (∀ url : String, NberIntegration.extractPaperId (url ++ "/") =
        NberIntegration.extractPaperId url) ∧
    (∀ url : String, NewspapersIntegration.canHandleUrl url = true →
      NewspapersIntegration.canHandleUrl (url ++ "/") = true →
      NewspapersIntegration.extractPaperId (url ++ "/") =
        NewspapersIntegration.extractPaperId url) := by
  refine ⟨fun url => rfl, fun url => rfl, fun url => rfl, ?_, ?_, ?_⟩
  · intro url
    unfold AclAnthologyIntegration.extractPaperId
    rw [String.data_append, show ("/" : String).data = ['/'] from rfl,
      scanFirst_append_slash _
        (tryPatAt_append_slash "aclanthology.org/".data aclBody rfl aclBody_append_slash)
        url.data]
  · intro url
    unfold NberIntegration.extractPaperId
    rw [String.data_append, show ("/" : String).data = ['/'] from rfl,
      scanFirst_append_slash _
        (tryPatAt_append_slash "nber.org/papers/".data nberBody rfl nberBody_append_slash)
        url.data]
  · intro url h1 h2
    unfold NewspapersIntegration.extractPaperId
    rw [h1, h2]
    simp only [if_pos]
    unfold generatePaperIdFromUrl
    rw [normalizeUrl_append_slash]

/-- C8 witness: the NBER and ACL ids are slash-invariant at concrete paper
URLs, and a concrete NYT article URL is covered with and without the
trailing slash and receives the same hash-based id. -/
theorem extractPaperId_deterministic_slash_invariant_witness :
    AclAnthologyIntegration.extractPaperId ("https://aclanthology.org/P19-1001" ++ "/") =
      AclAnthologyIntegration.extractPaperId "https://aclanthology.org/P19-1001" ∧
    NewspapersIntegration.canHandleUrl "https://www.nytimes.com/2023/05/01/technology/ai.html" = true ∧
    NewspapersIntegration.canHandleUrl
      ("https://www.nytimes.com/2023/05/01/technology/ai.html" ++ "/") = true ∧
    NewspapersIntegration.extractPaperId
        ("https://www.nytimes.com/2023/05/01/technology/ai.html" ++ "/") =
      NewspapersIntegration.extractPaperId
        "https://www.nytimes.com/2023/05/01/technology/ai.html" :=
  ⟨extractPaperId_deterministic_slash_invariant.2.2.2.1 "https://aclanthology.org/P19-1001",
    by decide, by decide,
    extractPaperId_deterministic_slash_invariant.2.2.2.2.2
      "https://www.nytimes.com/2023/05/01/technology/ai.html" (by decide) (by decide)⟩
